import Mathlib

/-!
Shallow embedding of the crossmint megaverse batch runner (TypeScript).

The repository has two phases sharing the same execution core:
`src/phase1/polyanets.ts` and a second, unnamed module (`src/unnamed/part_000`).
The core consists of:
  * a `Grid` bounding box with `inBounds`,
  * a pure token parser `parseToken`,
  * a plan builder `planActions` producing a row-major list of `Action`s,
  * a retry combinator `withRetry` with jittered exponential backoff,
  * a FIFO concurrency `Limiter`.

JavaScript numbers are modelled by `JSNum` (a rational or NaN) where NaN and
non-integer behaviour matters; loop indices and array lengths, which are
always non-negative integers in the source, are modelled by `Nat`.
Fallible constructors and parsers return `Except String`.
-/

namespace Crossmint

/-- A JavaScript number: NaN or a (rational) numeric value.  Infinities do not
arise in the fragments modelled here. -/
inductive JSNum where
  | nan : JSNum
  | num (q : ℚ) : JSNum
deriving DecidableEq, Repr

/-- JavaScript `<` : any comparison with NaN is false. -/
def jsLt : JSNum → JSNum → Bool
  | .num a, .num b => decide (a < b)
  | _, _ => false

/-- JavaScript `<=` : any comparison with NaN is false. -/
def jsLe : JSNum → JSNum → Bool
  | .num a, .num b => decide (a ≤ b)
  | _, _ => false

/-- JavaScript `>=` : any comparison with NaN is false. -/
def jsGe : JSNum → JSNum → Bool
  | .num a, .num b => decide (b ≤ a)
  | _, _ => false

/-- `Number.isInteger`: false on NaN, and on a numeric value true iff it is
an integer (denominator 1). -/
def JSNum.isInteger : JSNum → Bool
  | .nan => false
  | .num q => q.den == 1

/-- An integer `(row, column)` pair.  The plan-builder loop only ever builds
points from non-negative loop indices, but `inBounds` is defined over all
integers, as in the source. -/
structure Point where
  row : Int
  column : Int
deriving DecidableEq, Repr

/-- The `(height, width)` bounding box.  Construction (`Grid.make`) has
already validated both as positive integers. -/
structure Grid where
  height : Nat
  width : Nat
deriving DecidableEq, Repr

/-- The validation test in the `Grid` constructor (part_000 line 32):
`height <= 0 || width <= 0 || !Number.isInteger(height) || !Number.isInteger(width)`. -/
def gridValidationFails (height width : JSNum) : Bool :=
  jsLe height (.num 0) || jsLe width (.num 0) || !height.isInteger || !width.isInteger

/-- The `Grid` constructor, specialised to the `Nat` arguments it receives
from `planActions` (array lengths). -/
def Grid.make (height width : Nat) : Except String Grid :=
  if gridValidationFails (.num height) (.num width) then
    .error "Grid dimensions must be positive integers"
  else
    .ok ⟨height, width⟩

/-- `Grid.inBounds` (part_000 lines 36-38):
`p.row >= 0 && p.row < this.height && p.column >= 0 && p.column < this.width`. -/
def Grid.inBounds (g : Grid) (p : Point) : Bool :=
  decide (0 ≤ p.row) && decide (p.row < (g.height : Int)) &&
    decide (0 ≤ p.column) && decide (p.column < (g.width : Int))

/-- The decoded meaning of one goal token. -/
inductive Cell where
  | space : Cell
  | polyanet : Cell
  | soloon (color : String) : Cell
  | cometh (direction : String) : Cell
deriving DecidableEq, Repr

/-- The colors accepted by the regex `^(BLUE|RED|PURPLE|WHITE)_SOLOON$`. -/
def soloonColors : List String := ["BLUE", "RED", "PURPLE", "WHITE"]

/-- The directions accepted by `^(UP|DOWN|LEFT|RIGHT)_COMETH$`, paired with
the lowercase value assigned by `dirMap`. -/
def comethDirs : List (String × String) :=
  [("UP", "up"), ("DOWN", "down"), ("LEFT", "left"), ("RIGHT", "right")]

/-- `toLowerCase()` as an evaluable character map (`String.toLower` itself
is compiled code that does not reduce in proofs). -/
def strLower (s : String) : String := ⟨s.data.map Char.toLower⟩

/-- `toUpperCase()` as an evaluable character map. -/
def strUpper (s : String) : String := ⟨s.data.map Char.toUpper⟩

/-- Decidable equality of `Except` results, for evaluation in proofs. -/
instance exceptDecEq {A B : Type} [DecidableEq A] [DecidableEq B] :
    DecidableEq (Except A B) := fun x y =>
  match x, y with
  | .ok a, .ok b =>
    if h : a = b then isTrue (by rw [h]) else isFalse (fun hc => by cases hc; exact h rfl)
  | .error a, .error b =>
    if h : a = b then isTrue (by rw [h]) else isFalse (fun hc => by cases hc; exact h rfl)
  | .ok _, .error _ => isFalse (fun hc => by cases hc)
  | .error _, .ok _ => isFalse (fun hc => by cases hc)

/-- The capture group of `token.match(/^(BLUE|RED|PURPLE|WHITE)_SOLOON$/)`. -/
def soloonMatch (token : String) : Option String :=
  soloonColors.find? (fun c => token == c ++ "_SOLOON")

/-- The capture group of `token.match(/^(UP|DOWN|LEFT|RIGHT)_COMETH$/)`. -/
def comethMatch (token : String) : Option String :=
  (comethDirs.find? (fun d => token == d.1 ++ "_COMETH")).map Prod.fst

/-- `parseToken` (part_000 lines 43-64).  The `dirMap[...]` lookup on a
matched direction is total; `getD ""` stands for the unreachable
`undefined` of a failed record lookup. -/
def parseToken (token : String) : Except String Cell :=
  if token == "SPACE" then .ok .space
  else if token == "POLYANET" then .ok .polyanet
  else
    match soloonMatch token with
    | some color => .ok (.soloon (strLower color))
    | none =>
      match comethMatch token with
      | some d => .ok (.cometh ((comethDirs.lookup d).getD ""))
      | none => .error ("Unknown token: " ++ token)

/-- The remote call captured by an `Action`'s `run` thunk, as data. -/
inductive RemoteCall where
  | createPolyanet (p : Point)
  | createSoloon (p : Point) (color : String)
  | createCometh (p : Point) (direction : String)
deriving DecidableEq, Repr

/-- One planned unit of work: `{kind: 'create', run, describe}`; `run` is
modelled by the `RemoteCall` it would perform. -/
structure Action where
  kind : String
  describe : String
  call : RemoteCall
deriving DecidableEq, Repr

/-- Indexing `goal[r][c]`; `.error` stands for the TypeError raised when the
source indexes past a ragged row and calls `.match` on `undefined`. -/
def jsIndex (goal : List (List String)) (r c : Nat) : Except String String :=
  match goal.get? r >>= fun row => row.get? c with
  | some s => .ok s
  | none => .error "TypeError: token is undefined"

/-- The body of the plan loop after the token has been parsed: the
out-of-bounds guard, then the `switch` on the cell kind. -/
def cellAction (grid : Grid) (r c : Nat) (cell : Cell) : List Action :=
  let p : Point := ⟨(r : Int), (c : Int)⟩
  if !grid.inBounds p then []
  else
    match cell with
    | .space => []
    | .polyanet => [⟨"create", s!"POLYANET @ ({r},{c})", .createPolyanet p⟩]
    | .soloon color =>
      let cu := strUpper color
      [⟨"create", s!"{cu}_SOLOON @ ({r},{c})", .createSoloon p color⟩]
    | .cometh dir =>
      let du := strUpper dir
      [⟨"create", s!"{du}_COMETH @ ({r},{c})", .createCometh p dir⟩]

/-- One iteration of the plan loop at `(r, c)`: read the token, parse it,
then apply the guard and the `switch`. -/
def planCell (grid : Grid) (goal : List (List String)) (r c : Nat) :
    Except String (List Action) := do
  let raw ← jsIndex goal r c
  let cell ← parseToken raw
  return cellAction grid r c cell

/-- The inner `for (let c = 0; c < width; c++)` loop of `planActions`,
iterating over an explicit list of column indices. -/
def planCells (grid : Grid) (goal : List (List String)) (r : Nat) :
    List Nat → Except String (List Action)
  | [] => .ok []
  | c :: cs => do
    let acts ← planCell grid goal r c
    let rest ← planCells grid goal r cs
    return acts ++ rest

/-- The outer `for (let r = 0; r < height; r++)` loop of `planActions`. -/
def planRows (grid : Grid) (goal : List (List String)) (width : Nat) :
    List Nat → Except String (List Action)
  | [] => .ok []
  | r :: rs => do
    let rowActs ← planCells grid goal r (List.range width)
    let rest ← planRows grid goal width rs
    return rowActs ++ rest

/-- `planActions` (part_000 lines 176-216): derive `(height, width)` from the
matrix, build the `Grid`, and walk the cells in row-major order. -/
def planActions (goal : List (List String)) : Except String (Grid × List Action) := do
  let height := goal.length
  let width := (goal.head?.map List.length).getD 0
  let grid ← Grid.make height width
  let actions ← planRows grid goal width (List.range height)
  return (grid, actions)

/-- Like `cellAction` but with the defensive out-of-bounds guard removed. -/
def cellActionUnguarded (r c : Nat) (cell : Cell) : List Action :=
  let p : Point := ⟨(r : Int), (c : Int)⟩
  match cell with
  | .space => []
  | .polyanet => [⟨"create", s!"POLYANET @ ({r},{c})", .createPolyanet p⟩]
  | .soloon color =>
    let cu := strUpper color
    [⟨"create", s!"{cu}_SOLOON @ ({r},{c})", .createSoloon p color⟩]
  | .cometh dir =>
    let du := strUpper dir
    [⟨"create", s!"{du}_COMETH @ ({r},{c})", .createCometh p dir⟩]

/-- Like `planCell` but without the out-of-bounds guard. -/
def planCellUnguarded (goal : List (List String)) (r c : Nat) :
    Except String (List Action) := do
  let raw ← jsIndex goal r c
  let cell ← parseToken raw
  return cellActionUnguarded r c cell

/-- Inner loop of the unguarded plan builder. -/
def planCellsUnguarded (goal : List (List String)) (r : Nat) :
    List Nat → Except String (List Action)
  | [] => .ok []
  | c :: cs => do
    let acts ← planCellUnguarded goal r c
    let rest ← planCellsUnguarded goal r cs
    return acts ++ rest

/-- Outer loop of the unguarded plan builder. -/
def planRowsUnguarded (goal : List (List String)) (width : Nat) :
    List Nat → Except String (List Action)
  | [] => .ok []
  | r :: rs => do
    let rowActs ← planCellsUnguarded goal r (List.range width)
    let rest ← planRowsUnguarded goal width rs
    return rowActs ++ rest

/-- `planActions` with the defensive out-of-bounds guard removed. -/
def planActionsUnguarded (goal : List (List String)) : Except String (Grid × List Action) := do
  let height := goal.length
  let width := (goal.head?.map List.length).getD 0
  let grid ← Grid.make height width
  let actions ← planRowsUnguarded goal width (List.range height)
  return (grid, actions)

/-- The point at which an `Action`'s remote call operates. -/
def RemoteCall.point : RemoteCall → Point
  | .createPolyanet p => p
  | .createSoloon p _ => p
  | .createCometh p _ => p

/-- Strict row-major (lexicographic) order on points. -/
def rowMajorLt (p q : Point) : Prop :=
  p.row < q.row ∨ (p.row = q.row ∧ p.column < q.column)

/-! ## Backoff-retry executor

`withRetry` is modelled over a deterministic environment: `fn k` is the
outcome of the `k`-th invocation of the wrapped operation, and `rand k` is
the `Math.random()` draw made after a failed attempt `k`.  The model returns
the full observable behaviour: final result, number of invocations, the
`onRetry(err, attempt + 1)` calls, and the computed sleep delays. -/

/-- One invocation outcome: a value, or a rejection optionally carrying a
numeric `status` field. -/
inductive Outcome (T : Type) where
  | ok (v : T) : Outcome T
  | fail (status : Option Int) : Outcome T
deriving DecidableEq, Repr

/-- The observable behaviour of one `withRetry` call. -/
structure RetryTrace (T : Type) where
  result : Except (Option Int) T
  attempts : Nat
  retryCalls : List (Option Int × Nat)
  delays : List Int
deriving Repr

/-- Transient classification of phase 1 (`src/phase1/polyanets.ts` line 110):
`status === 429 || (status && status >= 500) || status === undefined`.
The truthiness of `status && status >= 500` requires `status` nonzero. -/
def transientPhase1 (status : Option Int) : Bool :=
  status == some 429 ||
    (match status with
     | some s => !(s == 0) && decide (500 ≤ s)
     | none => false) ||
    status == none

/-- Transient classification of the unnamed phase-2 module (part_000 line
149): `status === 429 || (status != null && status >= 500) || status === undefined`. -/
def transientPhase2 (status : Option Int) : Bool :=
  status == some 429 ||
    (match status with
     | some s => decide (500 ≤ s)
     | none => false) ||
    status == none

/-- The `while (true)` loop of `withRetry`, parametrised by the transient
classifier.  A retry happens iff `attempt < retries` and the failure is
transient (the source tests `attempt >= retries || !transient` and throws);
the delay is `Math.round(Math.random() * baseMs * 2 ** attempt)`. -/
def withRetryGo {T : Type} (transient : Option Int → Bool) (fn : Nat → Outcome T)
    (rand : Nat → ℚ) (retries : Nat) (baseMs : ℚ) (attempt : Nat) : RetryTrace T :=
  match fn attempt with
  | .ok v => ⟨.ok v, 1, [], []⟩
  | .fail status =>
    if decide (retries ≤ attempt) || !transient status then
      ⟨.error status, 1, [], []⟩
    else
      let delay := round (rand attempt * baseMs * (2 : ℚ) ^ attempt)
      let rest := withRetryGo transient fn rand retries baseMs (attempt + 1)
      ⟨rest.result, rest.attempts + 1, (status, attempt + 1) :: rest.retryCalls,
        delay :: rest.delays⟩
termination_by retries - attempt
decreasing_by
  simp only [Bool.or_eq_true, decide_eq_true_eq, Bool.not_eq_eq_eq_not] at *
  omega

/-- The optional `opts` object of `withRetry`. -/
structure RetryOpts where
  retries : Option Nat
  baseMs : Option ℚ
deriving DecidableEq, Repr

/-- Phase 1 `withRetry`: defaults `retries = 5`, `baseMs = 300`. -/
def withRetryPhase1 {T : Type} (fn : Nat → Outcome T) (rand : Nat → ℚ)
    (opts : RetryOpts) : RetryTrace T :=
  withRetryGo transientPhase1 fn rand (opts.retries.getD 5) (opts.baseMs.getD 300) 0

/-- Phase 2 `withRetry`: defaults `retries = 6`, `baseMs = 250`. -/
def withRetryPhase2 {T : Type} (fn : Nat → Outcome T) (rand : Nat → ℚ)
    (opts : RetryOpts) : RetryTrace T :=
  withRetryGo transientPhase2 fn rand (opts.retries.getD 6) (opts.baseMs.getD 250) 0

/-! ## Concurrency limiter

The `Limiter` is single-threaded cooperative code, but the wake handoff in
`finally` is NOT atomic: `this.active--; const next = this.queue.shift();
if (next) next();` resolves the head waiter's promise, which only schedules
the waiter's continuation (its `this.active++`) as a later microtask.  The
model is a transition system over an abstract task identifier type with
three events:
  * `arrive t` — a call to `run`: admitted at once (`active++`) when
    `active < max`, else the resolver is pushed (FIFO) and the caller
    suspends;
  * `finish` — a running task's `finally` block: `active--`, and the head
    waiter, if any, moves from `queue` to `woken` (wake scheduled, not yet
    run);
  * `resume` — the pending microtask of the earliest woken waiter: its
    unconditional `this.active++`, with no re-check of the bound.
`admitted` logs the order in which tasks start running, `waiterAdmitted`
its sub-log of tasks that had suspended, and `enqueued` the order in which
tasks were pushed to the queue.  Promise reactions run in resolution order,
so `resume` takes the head of `woken`. -/

/-- The limiter's mutable state (`active`, `queue`), the pending wakeups
(`woken`: resolvers called, continuations not yet run), and three logs. -/
structure LimiterState (ι : Type) where
  active : Nat
  queue : List ι
  woken : List ι
  admitted : List ι
  waiterAdmitted : List ι
  enqueued : List ι
deriving DecidableEq, Repr

/-- An event of the limiter: a `run` call, a running task's `finally`, or
the deferred resumption of the earliest woken waiter. -/
inductive LEvent (ι : Type) where
  | arrive (t : ι) : LEvent ι
  | finish : LEvent ι
  | resume : LEvent ι
deriving DecidableEq, Repr

/-- One step of the limiter with bound `max`. -/
def lstep {ι : Type} (max : Nat) (s : LimiterState ι) : LEvent ι → LimiterState ι
  | .arrive t =>
    if max ≤ s.active then
      { s with queue := s.queue ++ [t], enqueued := s.enqueued ++ [t] }
    else
      { s with active := s.active + 1, admitted := s.admitted ++ [t] }
  | .finish =>
    match s.queue with
    | [] => { s with active := s.active - 1 }
    | h :: rest => { s with active := s.active - 1, queue := rest, woken := s.woken ++ [h] }
  | .resume =>
    match s.woken with
    | [] => s
    | w :: wrest =>
      { s with
        active := s.active + 1
        woken := wrest
        admitted := s.admitted ++ [w]
        waiterAdmitted := s.waiterAdmitted ++ [w] }

/-- Run a sequence of events. -/
def runTrace {ι : Type} (max : Nat) (s : LimiterState ι) (events : List (LEvent ι)) :
    LimiterState ι :=
  events.foldl (lstep max) s

/-- The initial limiter state. -/
def initLimiter {ι : Type} : LimiterState ι := ⟨0, [], [], [], [], []⟩

/-- A trace is valid when every `finish` happens while some task is running
(`active > 0`, since `finish` is the `finally` block of an admitted task)
and every `resume` corresponds to a pending wakeup (`woken ≠ []`, since the
microtask exists only after `next()` was called). -/
def validTrace {ι : Type} (max : Nat) : LimiterState ι → List (LEvent ι) → Bool
  | _, [] => true
  | s, .arrive t :: es => validTrace max (lstep max s (.arrive t)) es
  | s, .finish :: es => decide (0 < s.active) && validTrace max (lstep max s .finish) es
  | s, .resume :: es => !s.woken.isEmpty && validTrace max (lstep max s .resume) es

/-- Recognises the drain phase of a batch run: only `finish` and `resume`
events, no further arrivals. -/
def isDrainEvent {ι : Type} : LEvent ι → Bool
  | .arrive _ => false
  | .finish => true
  | .resume => true

/-- The constructor test of `Limiter` (part_000 line 163):
`if (max < 1) throw`, at JavaScript number level. -/
def limiterCtorThrows (max : JSNum) : Bool := jsLt max (.num 1)

/-- The limiter state visible to a single `run` call at JavaScript number
level: the `active` counter and the queue length. -/
structure JSLimiterState where
  active : ℚ
  queueLen : Nat
deriving DecidableEq, Repr

/-- The admission test of `run` (part_000 line 165): suspend and enqueue when
`this.active >= this.max`, else proceed straight to `this.active++`. -/
def jsArrive (max : JSNum) (s : JSLimiterState) : JSLimiterState :=
  if jsGe (.num s.active) max then { s with queueLen := s.queueLen + 1 }
  else { s with active := s.active + 1 }

/-- The spec-side notion "is a positive integer" for a JavaScript number. -/
def JSNum.isPositiveInteger : JSNum → Prop
  | .nan => False
  | .num q => q.den = 1 ∧ 0 < q

/-- Invariant of the arrival phase (no task has finished yet): the bound
holds, no wakeup is pending, and the queue fills only once `active = max`. -/
def BatchInv {ι : Type} (max : Nat) (s : LimiterState ι) : Prop :=
  s.active ≤ max ∧ s.woken = [] ∧ (s.queue ≠ [] → s.active = max)

/-- Invariant of the drain phase: running tasks plus pending wakeups never
exceed `max`, and the queue is nonempty only while they saturate it. -/
def DrainInv {ι : Type} (max : Nat) (s : LimiterState ι) : Prop :=
  s.active + s.woken.length ≤ max ∧
    (s.queue ≠ [] → s.active + s.woken.length = max)

/-! ## Supporting lemmas: retry executor -/

/-- Unfolding: a successful invocation returns at once. -/
theorem withRetryGo_ok {T : Type} (transient : Option Int → Bool) (fn : Nat → Outcome T)
    (rand : Nat → ℚ) (retries : Nat) (baseMs : ℚ) (attempt : Nat) (v : T)
    (hf : fn attempt = .ok v) :
    withRetryGo transient fn rand retries baseMs attempt = ⟨.ok v, 1, [], []⟩ := by
  rw [withRetryGo, hf]

/-- Unfolding: a failure with the budget exhausted or a fatal status is
propagated at once. -/
theorem withRetryGo_throw {T : Type} (transient : Option Int → Bool) (fn : Nat → Outcome T)
    (rand : Nat → ℚ) (retries : Nat) (baseMs : ℚ) (attempt : Nat) (status : Option Int)
    (hf : fn attempt = .fail status)
    (hc : retries ≤ attempt ∨ transient status = false) :
    withRetryGo transient fn rand retries baseMs attempt = ⟨.error status, 1, [], []⟩ := by
  have hcnd : (decide (retries ≤ attempt) || !transient status) = true := by
    rcases hc with hc | hc <;> simp [hc]
  rw [withRetryGo, hf]
  simp [hcnd]

/-- Unfolding: a transient failure within budget sleeps and retries. -/
theorem withRetryGo_retry {T : Type} (transient : Option Int → Bool) (fn : Nat → Outcome T)
    (rand : Nat → ℚ) (retries : Nat) (baseMs : ℚ) (attempt : Nat) (status : Option Int)
    (hf : fn attempt = .fail status)
    (h1 : attempt < retries) (h2 : transient status = true) :
    withRetryGo transient fn rand retries baseMs attempt =
      ⟨(withRetryGo transient fn rand retries baseMs (attempt + 1)).result,
        (withRetryGo transient fn rand retries baseMs (attempt + 1)).attempts + 1,
        (status, attempt + 1) :: (withRetryGo transient fn rand retries baseMs (attempt + 1)).retryCalls,
        round (rand attempt * baseMs * (2 : ℚ) ^ attempt) ::
          (withRetryGo transient fn rand retries baseMs (attempt + 1)).delays⟩ := by
  have hcnd : (decide (retries ≤ attempt) || !transient status) = false := by
    simp [h2]
    omega
  rw [withRetryGo, hf]
  simp [hcnd]

/-- Every call invokes the operation at least once. -/
theorem withRetryGo_attempts_pos {T : Type} (transient : Option Int → Bool)
    (fn : Nat → Outcome T) (rand : Nat → ℚ) (retries : Nat) (baseMs : ℚ) :
    ∀ attempt, 1 ≤ (withRetryGo transient fn rand retries baseMs attempt).attempts := by
  suffices H : ∀ fuel attempt, retries - attempt ≤ fuel →
      1 ≤ (withRetryGo transient fn rand retries baseMs attempt).attempts by
    exact fun attempt => H (retries - attempt) attempt le_rfl
  intro fuel
  induction fuel with
  | zero =>
    intro a ha
    cases hf : fn a with
    | ok v => rw [withRetryGo_ok transient fn rand retries baseMs a v hf]
    | fail status =>
      rw [withRetryGo_throw transient fn rand retries baseMs a status hf (Or.inl (by omega))]
  | succ n ih =>
    intro a ha
    cases hf : fn a with
    | ok v => rw [withRetryGo_ok transient fn rand retries baseMs a v hf]
    | fail status =>
      by_cases hc : retries ≤ a ∨ transient status = false
      · rw [withRetryGo_throw transient fn rand retries baseMs a status hf hc]
      · push_neg at hc
        rw [withRetryGo_retry transient fn rand retries baseMs a status hf (by omega)
          (by simpa using hc.2)]
        simp

/-- Two classifiers that agree pointwise give the same retry behaviour. -/
theorem withRetryGo_congr {T : Type} (t1 t2 : Option Int → Bool)
    (h : ∀ s, t1 s = t2 s) (fn : Nat → Outcome T) (rand : Nat → ℚ)
    (retries : Nat) (baseMs : ℚ) :
    ∀ attempt, withRetryGo t1 fn rand retries baseMs attempt =
      withRetryGo t2 fn rand retries baseMs attempt := by
  suffices H : ∀ fuel attempt, retries - attempt ≤ fuel →
      withRetryGo t1 fn rand retries baseMs attempt =
        withRetryGo t2 fn rand retries baseMs attempt by
    exact fun attempt => H (retries - attempt) attempt le_rfl
  intro fuel
  induction fuel with
  | zero =>
    intro a ha
    cases hf : fn a with
    | ok v =>
      rw [withRetryGo_ok t1 fn rand retries baseMs a v hf,
        withRetryGo_ok t2 fn rand retries baseMs a v hf]
    | fail status =>
      rw [withRetryGo_throw t1 fn rand retries baseMs a status hf (Or.inl (by omega)),
        withRetryGo_throw t2 fn rand retries baseMs a status hf (Or.inl (by omega))]
  | succ n ih =>
    intro a ha
    cases hf : fn a with
    | ok v =>
      rw [withRetryGo_ok t1 fn rand retries baseMs a v hf,
        withRetryGo_ok t2 fn rand retries baseMs a v hf]
    | fail status =>
      by_cases hc : retries ≤ a ∨ t2 status = false
      · rw [withRetryGo_throw t1 fn rand retries baseMs a status hf (by rw [h]; exact hc),
          withRetryGo_throw t2 fn rand retries baseMs a status hf hc]
      · push_neg at hc
        have h2 : t2 status = true := by simpa using hc.2
        rw [withRetryGo_retry t1 fn rand retries baseMs a status hf (by omega) (by rw [h]; exact h2),
          withRetryGo_retry t2 fn rand retries baseMs a status hf (by omega) h2,
          ih (a + 1) (by omega)]

/-- The two transient classifiers agree: `status && status >= 500` and
`status != null && status >= 500` have the same truthiness, because a
status of `0` fails `>= 500` anyway. -/
theorem transientPhase1_eq_transientPhase2 (s : Option Int) :
    transientPhase1 s = transientPhase2 s := by
  rcases s with _ | s
  · rfl
  · simp only [transientPhase1, transientPhase2]
    by_cases h : (500 : Int) ≤ s
    · have hs : ¬ s = 0 := by omega
      simp [h, hs]
    · simp [h]

/-- An operation that fails transiently on every attempt exhausts the whole
budget: from `attempt`, with `attempt ≤ retries`, the loop makes
`retries - attempt + 1` invocations and reports the last failure. -/
theorem withRetryGo_always_fail {T : Type} (transient : Option Int → Bool)
    (fn : Nat → Outcome T) (rand : Nat → ℚ) (retries : Nat) (baseMs : ℚ)
    (statuses : Nat → Option Int)
    (hfail : ∀ k, fn k = .fail (statuses k))
    (htrans : ∀ k, transient (statuses k) = true) :
    ∀ attempt, attempt ≤ retries →
      (withRetryGo transient fn rand retries baseMs attempt).attempts =
        retries - attempt + 1 ∧
      (withRetryGo transient fn rand retries baseMs attempt).result =
        .error (statuses retries) := by
  suffices H : ∀ fuel attempt, retries - attempt ≤ fuel → attempt ≤ retries →
      (withRetryGo transient fn rand retries baseMs attempt).attempts =
        retries - attempt + 1 ∧
      (withRetryGo transient fn rand retries baseMs attempt).result =
        .error (statuses retries) by
    exact fun attempt h => H (retries - attempt) attempt le_rfl h
  intro fuel
  induction fuel with
  | zero =>
    intro a hfu ha
    have haeq : a = retries := by omega
    subst haeq
    rw [withRetryGo_throw transient fn rand a baseMs a (statuses a) (hfail a) (Or.inl le_rfl)]
    simp
  | succ n ih =>
    intro a hfu ha
    rcases Nat.eq_or_lt_of_le ha with haeq | halt
    · subst haeq
      rw [withRetryGo_throw transient fn rand a baseMs a (statuses a) (hfail a) (Or.inl le_rfl)]
      simp
    · rw [withRetryGo_retry transient fn rand retries baseMs a (statuses a) (hfail a) halt
        (htrans a)]
      have := ih (a + 1) (by omega) (by omega)
      refine ⟨?_, this.2⟩
      simp only [this.1]
      omega

/-! ## Claims C3, C4, C9: retry executor -/

/-- C3: for every `r ≥ 0`, `withRetry` (phase 2) with `retries = r` over an
operation that always fails transiently (e.g. always status 503) invokes the
operation exactly `r + 1` times and propagates the last failure; and with
`retries = 0` it makes exactly one attempt and never retries, whatever the
failure's status. -/
theorem spec_c3_retry_exhausts_budget :
    (∀ (T : Type) (fn : Nat → Outcome T) (rand : Nat → ℚ) (b : Option ℚ) (r : Nat)
        (statuses : Nat → Option Int),
      (∀ k, fn k = .fail (statuses k)) →
      (∀ k, transientPhase2 (statuses k) = true) →
      (withRetryPhase2 fn rand ⟨some r, b⟩).attempts = r + 1 ∧
        (withRetryPhase2 fn rand ⟨some r, b⟩).result = .error (statuses r)) ∧
    (∀ (T : Type) (fn : Nat → Outcome T) (rand : Nat → ℚ) (b : Option ℚ)
        (status : Option Int),
      fn 0 = .fail status →
      (withRetryPhase2 fn rand ⟨some 0, b⟩).attempts = 1 ∧
        (withRetryPhase2 fn rand ⟨some 0, b⟩).result = .error status) := by
  constructor
  · intro T fn rand b r statuses hfail htrans
    have := withRetryGo_always_fail transientPhase2 fn rand r (b.getD 250) statuses hfail
      htrans 0 (Nat.zero_le r)
    simpa [withRetryPhase2] using this
  · intro T fn rand b status hf
    have := withRetryGo_throw transientPhase2 fn rand 0 (b.getD 250) 0 status hf
      (Or.inl le_rfl)
    simp [withRetryPhase2, this]

/-- Witness for C3 at `r = 2`, status 503, and at `retries = 0`, status 404. -/
theorem spec_c3_witness :
    (withRetryPhase2 (fun _ => Outcome.fail (some 503)) (fun _ => 0)
        ⟨some 2, none⟩ : RetryTrace Nat).attempts = 3 ∧
    (withRetryPhase2 (fun _ => Outcome.fail (some 503)) (fun _ => 0)
        ⟨some 2, none⟩ : RetryTrace Nat).result = .error (some 503) ∧
    (withRetryPhase2 (fun _ => Outcome.fail (some 404)) (fun _ => 0)
        ⟨some 0, none⟩ : RetryTrace Nat).attempts = 1 :=
  ⟨(spec_c3_retry_exhausts_budget.1 Nat (fun _ => Outcome.fail (some 503)) (fun _ => 0)
      none 2 (fun _ => some 503) (fun _ => rfl) (fun _ => rfl)).1,
   (spec_c3_retry_exhausts_budget.1 Nat (fun _ => Outcome.fail (some 503)) (fun _ => 0)
      none 2 (fun _ => some 503) (fun _ => rfl) (fun _ => rfl)).2,
   (spec_c3_retry_exhausts_budget.2 Nat (fun _ => Outcome.fail (some 404)) (fun _ => 0)
      none (some 404) rfl).1⟩

/-- C4: a failure is transient iff it carries no status, status 429, or any
status ≥ 500; a fatal failure (e.g. 404) on the first attempt gives exactly
one attempt, immediate propagation, and no `onRetry` invocation, while a
transient first failure with budget remaining is retried (≥ 2 attempts). -/
theorem spec_c4_fatal_no_retry :
    (∀ s : Option Int, transientPhase2 s = true ↔
      (s = none ∨ s = some 429 ∨ ∃ n : Int, s = some n ∧ 500 ≤ n)) ∧
    (∀ (T : Type) (fn : Nat → Outcome T) (rand : Nat → ℚ) (opts : RetryOpts)
        (status : Option Int),
      fn 0 = .fail status → transientPhase2 status = false →
      (withRetryPhase2 fn rand opts).attempts = 1 ∧
        (withRetryPhase2 fn rand opts).result = .error status ∧
        (withRetryPhase2 fn rand opts).retryCalls = []) ∧
    (∀ (T : Type) (fn : Nat → Outcome T) (rand : Nat → ℚ) (opts : RetryOpts)
        (status : Option Int),
      fn 0 = .fail status → 0 < opts.retries.getD 6 → transientPhase2 status = true →
      2 ≤ (withRetryPhase2 fn rand opts).attempts) := by
  refine ⟨?_, ?_, ?_⟩
  · intro s
    rcases s with _ | n
    · simp [transientPhase2]
    · simp only [transientPhase2, beq_iff_eq, Option.some.injEq, reduceCtorEq,
        Bool.or_eq_true, decide_eq_true_eq, false_or, or_false]
      constructor
      · rintro (h | h)
        · exact Or.inl h
        · exact Or.inr ⟨n, rfl, h⟩
      · rintro (h | ⟨m, hm, h⟩)
        · exact Or.inl h
        · cases hm
          exact Or.inr h
  · intro T fn rand opts status hf ht
    rw [withRetryPhase2, withRetryGo_throw transientPhase2 fn rand (opts.retries.getD 6)
      (opts.baseMs.getD 250) 0 status hf (Or.inr ht)]
    exact ⟨rfl, rfl, rfl⟩
  · intro T fn rand opts status hf hr ht
    rw [withRetryPhase2, withRetryGo_retry transientPhase2 fn rand (opts.retries.getD 6)
      (opts.baseMs.getD 250) 0 status hf (by omega) ht]
    exact Nat.succ_le_succ (withRetryGo_attempts_pos transientPhase2 fn rand
      (opts.retries.getD 6) (opts.baseMs.getD 250) 1)

/-- Witness for C4: 404 is fatal (one attempt, no `onRetry`), 503 is
transient (a second attempt happens). -/
theorem spec_c4_witness :
    (transientPhase2 (some 404) = true ↔
      ((some 404 : Option Int) = none ∨ (some 404 : Option Int) = some 429 ∨
        ∃ n : Int, (some 404 : Option Int) = some n ∧ 500 ≤ n)) ∧
    (withRetryPhase2 (fun _ => Outcome.fail (some 404)) (fun _ => 0)
        ⟨none, none⟩ : RetryTrace Nat).attempts = 1 ∧
    (withRetryPhase2 (fun _ => Outcome.fail (some 404)) (fun _ => 0)
        ⟨none, none⟩ : RetryTrace Nat).retryCalls = [] ∧
    2 ≤ (withRetryPhase2 (fun _ => Outcome.fail (some 503)) (fun _ => 0)
        ⟨none, none⟩ : RetryTrace Nat).attempts :=
  ⟨spec_c4_fatal_no_retry.1 (some 404),
   (spec_c4_fatal_no_retry.2.1 Nat (fun _ => Outcome.fail (some 404)) (fun _ => 0)
      ⟨none, none⟩ (some 404) rfl rfl).1,
   (spec_c4_fatal_no_retry.2.1 Nat (fun _ => Outcome.fail (some 404)) (fun _ => 0)
      ⟨none, none⟩ (some 404) rfl rfl).2.2,
   spec_c4_fatal_no_retry.2.2 Nat (fun _ => Outcome.fail (some 503)) (fun _ => 0)
      ⟨none, none⟩ (some 503) rfl (by decide) rfl⟩

/-- C9: with `retries` and `baseMs` supplied explicitly, the two `withRetry`
implementations have identical observable behaviour (attempts, delays,
`onRetry` calls, outcome) for every operation and every sequence of random
draws; they differ only in defaults, 5/300 (phase 1) against 6/250 (phase 2). -/
theorem spec_c9_withretry_equivalent :
    (∀ (T : Type) (fn : Nat → Outcome T) (rand : Nat → ℚ) (r : Nat) (b : ℚ),
      withRetryPhase1 fn rand ⟨some r, some b⟩ = withRetryPhase2 fn rand ⟨some r, some b⟩) ∧
    (∀ (T : Type) (fn : Nat → Outcome T) (rand : Nat → ℚ),
      withRetryPhase1 fn rand ⟨none, none⟩ = withRetryGo transientPhase1 fn rand 5 300 0 ∧
        withRetryPhase2 fn rand ⟨none, none⟩ = withRetryGo transientPhase2 fn rand 6 250 0) := by
  constructor
  · intro T fn rand r b
    simp only [withRetryPhase1, withRetryPhase2, Option.getD_some]
    exact withRetryGo_congr transientPhase1 transientPhase2
      transientPhase1_eq_transientPhase2 fn rand r b 0
  · intro T fn rand
    exact ⟨rfl, rfl⟩

/-! ## Claims C6, C8, C10: parser, grid validation, NaN concurrency -/

/-- C6: `parseToken` maps `"SPACE"` to the empty cell, `"POLYANET"` to the
polyanet cell, `<COLOR>_SOLOON` (COLOR ∈ {BLUE, RED, PURPLE, WHITE}) to a
soloon with the lowercase color, `<DIR>_COMETH` (DIR ∈ {UP, DOWN, LEFT,
RIGHT}) to a cometh with the lowercase direction, and rejects every other
string — `"GREEN_SOLOON"` in particular — with an unrecognized-token error. -/
theorem spec_c6_parse_token :
    parseToken "SPACE" = .ok .space ∧
    parseToken "POLYANET" = .ok .polyanet ∧
    (∀ c ∈ soloonColors, parseToken (c ++ "_SOLOON") = .ok (.soloon (strLower c))) ∧
    (∀ d ∈ comethDirs, parseToken (d.1 ++ "_COMETH") = .ok (.cometh d.2)) ∧
    parseToken "GREEN_SOLOON" = .error "Unknown token: GREEN_SOLOON" ∧
    (∀ token : String, token ≠ "SPACE" → token ≠ "POLYANET" →
      (∀ c ∈ soloonColors, token ≠ c ++ "_SOLOON") →
      (∀ d ∈ comethDirs, token ≠ d.1 ++ "_COMETH") →
      parseToken token = .error ("Unknown token: " ++ token)) := by
  refine ⟨rfl, rfl, ?_, ?_, rfl, ?_⟩
  · intro c hc
    fin_cases hc <;> rfl
  · intro d hd
    fin_cases hd <;> rfl
  · intro token h1 h2 h3 h4
    have hs : soloonMatch token = none := by
      rw [soloonMatch, List.find?_eq_none]
      intro c hc
      simpa using h3 c hc
    have hcm : comethMatch token = none := by
      rw [comethMatch, Option.map_eq_none']
      rw [List.find?_eq_none]
      intro d hd
      simpa using h4 d hd
    simp [parseToken, hs, hcm, h1, h2]

/-- Witness for C6 at a soloon, a cometh, and an off-grammar token. -/
theorem spec_c6_witness :
    parseToken ("BLUE" ++ "_SOLOON") = .ok (.soloon (strLower "BLUE")) ∧
    parseToken ("UP" ++ "_COMETH") = .ok (.cometh "up") ∧
    parseToken "XYZ" = .error ("Unknown token: " ++ "XYZ") :=
  ⟨spec_c6_parse_token.2.2.1 "BLUE" (by simp [soloonColors]),
   spec_c6_parse_token.2.2.2.1 ("UP", "up") (by simp [comethDirs]),
   spec_c6_parse_token.2.2.2.2.2 "XYZ" (by decide) (by decide) (by decide) (by decide)⟩

/-- C8: the `Grid` constructor rejects its arguments exactly when height or
width is not a positive integer, and a failed construction aborts
`planActions` before any `Action` is built. -/
theorem spec_c8_grid_validation :
    (∀ h w : JSNum, gridValidationFails h w = true ↔
      ¬ (h.isPositiveInteger ∧ w.isPositiveInteger)) ∧
    (∀ (goal : List (List String)) (e : String),
      Grid.make goal.length ((goal.head?.map List.length).getD 0) = .error e →
      planActions goal = .error e) := by
  constructor
  · intro h w
    rcases h with _ | q <;> rcases w with _ | q2 <;>
      simp [gridValidationFails, jsLe, JSNum.isInteger, JSNum.isPositiveInteger,
        ← not_le]
    tauto
  · intro goal e h
    simp only [planActions, h]
    rfl

/-- Witness for C8: the empty goal matrix has height 0 and aborts planning. -/
theorem spec_c8_witness :
    planActions ([] : List (List String)) =
      .error "Grid dimensions must be positive integers" :=
  spec_c8_grid_validation.2 [] "Grid dimensions must be positive integers" rfl

/-- C10: the `Limiter` constructor rejects `max` exactly when `max < 1`
evaluates to true, hence accepts NaN (and any numeric `max ≥ 1`, integer or
not); with `max = NaN` the admission test `active >= max` is never true, so
every `run` call is admitted immediately and the queue never grows. -/
theorem spec_c10_limiter_nan :
    limiterCtorThrows .nan = false ∧
    (∀ q : ℚ, limiterCtorThrows (.num q) = decide (q < 1)) ∧
    (∀ a : ℚ, jsGe (.num a) .nan = false) ∧
    (∀ s : JSLimiterState, jsArrive .nan s = { s with active := s.active + 1 }) :=
  ⟨rfl, fun _ => rfl, fun _ => rfl, fun _ => rfl⟩

/-! ## Supporting lemmas: plan builder -/

/-- Bind on a successful `Except` computation. -/
theorem except_bind_ok {α β : Type} (a : α) (f : α → Except String β) :
    (Except.ok a >>= f) = f a := rfl

/-- Bind on a failed `Except` computation. -/
theorem except_bind_error {α β : Type} (e : String) (f : α → Except String β) :
    ((Except.error e : Except String α) >>= f) = .error e := rfl

/-- A successful `planCell` returns exactly the `switch` outcome of some cell. -/
theorem planCell_ok {grid : Grid} {goal : List (List String)} {r c : Nat}
    {acts : List Action} (h : planCell grid goal r c = .ok acts) :
    ∃ cell, acts = cellAction grid r c cell := by
  unfold planCell at h
  cases hj : jsIndex goal r c with
  | error e => rw [hj, except_bind_error] at h; simp at h
  | ok raw =>
    rw [hj, except_bind_ok] at h
    cases hp : parseToken raw with
    | error e => rw [hp, except_bind_error] at h; simp at h
    | ok cell =>
      rw [hp, except_bind_ok] at h
      have h' : Except.ok (cellAction grid r c cell) = Except.ok acts := h
      exact ⟨cell, (Except.ok.inj h').symm⟩

/-- Every action built at `(r, c)` operates at the point `(r, c)`. -/
theorem cellAction_point {grid : Grid} {r c : Nat} {cell : Cell} :
    ∀ a ∈ cellAction grid r c cell, a.call.point = ⟨(r : Int), (c : Int)⟩ := by
  intro a ha
  by_cases hb : grid.inBounds ⟨(r : Int), (c : Int)⟩ = true
  · cases cell with
    | space => simp [cellAction, hb] at ha
    | polyanet => simp [cellAction, hb] at ha; subst ha; rfl
    | soloon color => simp [cellAction, hb] at ha; subst ha; rfl
    | cometh dir => simp [cellAction, hb] at ha; subst ha; rfl
  · have hf : grid.inBounds ⟨(r : Int), (c : Int)⟩ = false := by simpa using hb
    simp [cellAction, hf] at ha

/-- One cell contributes at most one action, so any relation holds pairwise. -/
theorem cellAction_pairwise {grid : Grid} {r c : Nat} {cell : Cell}
    (R : Action → Action → Prop) : (cellAction grid r c cell).Pairwise R := by
  by_cases hb : grid.inBounds ⟨(r : Int), (c : Int)⟩ = true
  · cases cell <;> simp [cellAction, hb]
  · have hf : grid.inBounds ⟨(r : Int), (c : Int)⟩ = false := by simpa using hb
    simp [cellAction, hf]

/-- Actions from the inner loop come from the listed columns of row `r`. -/
theorem planCells_ok_elim {grid : Grid} {goal : List (List String)} {r : Nat} :
    ∀ {cs : List Nat} {acts : List Action}, planCells grid goal r cs = .ok acts →
      ∀ a ∈ acts, ∃ c ∈ cs, a.call.point = ⟨(r : Int), (c : Int)⟩ := by
  intro cs
  induction cs with
  | nil =>
    intro acts h a ha
    unfold planCells at h
    simp at h
    subst h
    simp at ha
  | cons c cs ih =>
    intro acts h a ha
    unfold planCells at h
    cases h1 : planCell grid goal r c with
    | error e => rw [h1, except_bind_error] at h; simp at h
    | ok acts1 =>
      rw [h1, except_bind_ok] at h
      cases h2 : planCells grid goal r cs with
      | error e => rw [h2, except_bind_error] at h; simp at h
      | ok rest =>
        rw [h2, except_bind_ok] at h
        have h' : Except.ok (acts1 ++ rest) = Except.ok acts := h
        have hacts : acts = acts1 ++ rest := (Except.ok.inj h').symm
        subst hacts
        rcases List.mem_append.mp ha with hmem | hmem
        · obtain ⟨cell, hcell⟩ := planCell_ok h1
          subst hcell
          exact ⟨c, List.mem_cons_self c cs, cellAction_point a hmem⟩
        · obtain ⟨c', hc', hpt⟩ := ih h2 a hmem
          exact ⟨c', List.mem_cons_of_mem c hc', hpt⟩

/-- The inner loop over strictly increasing columns produces actions in
strict row-major order. -/
theorem planCells_pairwise {grid : Grid} {goal : List (List String)} {r : Nat} :
    ∀ {cs : List Nat} {acts : List Action}, cs.Pairwise (· < ·) →
      planCells grid goal r cs = .ok acts →
      acts.Pairwise (fun a b => rowMajorLt a.call.point b.call.point) := by
  intro cs
  induction cs with
  | nil =>
    intro acts _ h
    unfold planCells at h
    simp at h
    subst h
    exact List.Pairwise.nil
  | cons c cs ih =>
    intro acts hsort h
    unfold planCells at h
    cases h1 : planCell grid goal r c with
    | error e => rw [h1, except_bind_error] at h; simp at h
    | ok acts1 =>
      rw [h1, except_bind_ok] at h
      cases h2 : planCells grid goal r cs with
      | error e => rw [h2, except_bind_error] at h; simp at h
      | ok rest =>
        rw [h2, except_bind_ok] at h
        have h' : Except.ok (acts1 ++ rest) = Except.ok acts := h
        have hacts : acts = acts1 ++ rest := (Except.ok.inj h').symm
        subst hacts
        rw [List.pairwise_append]
        refine ⟨?_, ih (List.Pairwise.sublist (List.sublist_cons_self c cs) hsort) h2, ?_⟩
        · obtain ⟨cell, hcell⟩ := planCell_ok h1
          subst hcell
          exact cellAction_pairwise _
        · intro a ha b hb
          obtain ⟨cell, hcell⟩ := planCell_ok h1
          subst hcell
          have hpa := cellAction_point a ha
          obtain ⟨c', hc', hpb⟩ := planCells_ok_elim h2 b hb
          have hlt : c < c' := (List.pairwise_cons.mp hsort).1 c' hc'
          rw [rowMajorLt, hpa, hpb]
          refine Or.inr ⟨rfl, ?_⟩
          show (c : Int) < (c' : Int)
          exact_mod_cast hlt

/-- Actions from the outer loop come from the listed rows. -/
theorem planRows_ok_elim {grid : Grid} {goal : List (List String)} {width : Nat} :
    ∀ {rs : List Nat} {acts : List Action}, planRows grid goal width rs = .ok acts →
      ∀ a ∈ acts, ∃ r ∈ rs, a.call.point.row = (r : Int) := by
  intro rs
  induction rs with
  | nil =>
    intro acts h a ha
    unfold planRows at h
    simp at h
    subst h
    simp at ha
  | cons r rs ih =>
    intro acts h a ha
    unfold planRows at h
    cases h1 : planCells grid goal r (List.range width) with
    | error e => rw [h1, except_bind_error] at h; simp at h
    | ok acts1 =>
      rw [h1, except_bind_ok] at h
      cases h2 : planRows grid goal width rs with
      | error e => rw [h2, except_bind_error] at h; simp at h
      | ok rest =>
        rw [h2, except_bind_ok] at h
        have h' : Except.ok (acts1 ++ rest) = Except.ok acts := h
        have hacts : acts = acts1 ++ rest := (Except.ok.inj h').symm
        subst hacts
        rcases List.mem_append.mp ha with hmem | hmem
        · obtain ⟨c, _, hpt⟩ := planCells_ok_elim h1 a hmem
          exact ⟨r, List.mem_cons_self r rs, by rw [hpt]⟩
        · obtain ⟨r', hr', hpt⟩ := ih h2 a hmem
          exact ⟨r', List.mem_cons_of_mem r hr', hpt⟩

/-- The outer loop over strictly increasing rows produces actions in strict
row-major order. -/
theorem planRows_pairwise {grid : Grid} {goal : List (List String)} {width : Nat} :
    ∀ {rs : List Nat} {acts : List Action}, rs.Pairwise (· < ·) →
      planRows grid goal width rs = .ok acts →
      acts.Pairwise (fun a b => rowMajorLt a.call.point b.call.point) := by
  intro rs
  induction rs with
  | nil =>
    intro acts _ h
    unfold planRows at h
    simp at h
    subst h
    exact List.Pairwise.nil
  | cons r rs ih =>
    intro acts hsort h
    unfold planRows at h
    cases h1 : planCells grid goal r (List.range width) with
    | error e => rw [h1, except_bind_error] at h; simp at h
    | ok acts1 =>
      rw [h1, except_bind_ok] at h
      cases h2 : planRows grid goal width rs with
      | error e => rw [h2, except_bind_error] at h; simp at h
      | ok rest =>
        rw [h2, except_bind_ok] at h
        have h' : Except.ok (acts1 ++ rest) = Except.ok acts := h
        have hacts : acts = acts1 ++ rest := (Except.ok.inj h').symm
        subst hacts
        rw [List.pairwise_append]
        refine ⟨planCells_pairwise (List.pairwise_lt_range width) h1,
          ih (List.Pairwise.sublist (List.sublist_cons_self r rs) hsort) h2, ?_⟩
        intro a ha b hb
        obtain ⟨c, _, hpa⟩ := planCells_ok_elim h1 a ha
        obtain ⟨r', hr', hpb⟩ := planRows_ok_elim h2 b hb
        have hlt : r < r' := (List.pairwise_cons.mp hsort).1 r' hr'
        rw [rowMajorLt, hpb]
        have : a.call.point.row = (r : Int) := by rw [hpa]
        rw [this]
        exact Or.inl (by exact_mod_cast hlt)

/-- A successful `Grid.make` returns exactly the requested box. -/
theorem Grid.make_ok {h w : Nat} {g : Grid} (hg : Grid.make h w = .ok g) :
    g = ⟨h, w⟩ := by
  unfold Grid.make at hg
  split at hg
  · simp at hg
  · exact (Except.ok.inj hg).symm

/-- A successful `planActions` is a successful `planRows` over the full
row range, with the grid derived from the matrix. -/
theorem planActions_ok_elim {goal : List (List String)} {g : Grid} {acts : List Action}
    (h : planActions goal = .ok (g, acts)) :
    planRows g goal ((goal.head?.map List.length).getD 0) (List.range goal.length) =
      .ok acts := by
  simp only [planActions] at h
  cases hg : Grid.make goal.length ((goal.head?.map List.length).getD 0) with
  | error e => rw [hg, except_bind_error] at h; simp at h
  | ok grid =>
    rw [hg, except_bind_ok] at h
    have hgrid := Grid.make_ok hg
    cases hr : planRows grid goal ((goal.head?.map List.length).getD 0)
        (List.range goal.length) with
    | error e => rw [hr] at h; simp [Functor.map, Except.map] at h
    | ok acts' =>
      rw [hr] at h
      simp [Functor.map, Except.map] at h
      obtain ⟨hg', ha'⟩ := h
      rw [← hg', ← ha']
      exact hr

/-! ## Claims C5, C7: plan builder -/

/-- C5: on the literal 2×2 goal the plan is exactly the three expected
actions in order; in general a successful plan lists actions in strict
row-major order of their target points, and a SPACE cell contributes none. -/
theorem spec_c5_plan_row_major :
    planActions [["POLYANET", "SPACE"], ["BLUE_SOLOON", "RIGHT_COMETH"]] =
      .ok (⟨2, 2⟩,
        [⟨"create", "POLYANET @ (0,0)", .createPolyanet ⟨0, 0⟩⟩,
         ⟨"create", "BLUE_SOLOON @ (1,0)", .createSoloon ⟨1, 0⟩ "blue"⟩,
         ⟨"create", "RIGHT_COMETH @ (1,1)", .createCometh ⟨1, 1⟩ "right"⟩]) ∧
    (∀ (goal : List (List String)) (g : Grid) (acts : List Action),
      planActions goal = .ok (g, acts) →
      acts.Pairwise (fun a b => rowMajorLt a.call.point b.call.point)) ∧
    (∀ (grid : Grid) (r c : Nat), cellAction grid r c .space = []) := by
  refine ⟨rfl, ?_, ?_⟩
  · intro goal g acts h
    exact planRows_pairwise (List.pairwise_lt_range _) (planActions_ok_elim h)
  · intro grid r c
    simp [cellAction]

/-- Witness for C5: the three planned actions of the 2×2 goal are in strict
row-major order. -/
theorem spec_c5_witness :
    ([⟨"create", "POLYANET @ (0,0)", .createPolyanet ⟨0, 0⟩⟩,
      ⟨"create", "BLUE_SOLOON @ (1,0)", .createSoloon ⟨1, 0⟩ "blue"⟩,
      ⟨"create", "RIGHT_COMETH @ (1,1)", .createCometh ⟨1, 1⟩ "right"⟩] :
        List Action).Pairwise (fun a b => rowMajorLt a.call.point b.call.point) :=
  spec_c5_plan_row_major.2.1 [["POLYANET", "SPACE"], ["BLUE_SOLOON", "RIGHT_COMETH"]]
    ⟨2, 2⟩ _ (by rfl)

/-- In-bounds columns and rows pass the guard. -/
theorem inBounds_of_lt {g : Grid} {r c : Nat} (hr : r < g.height) (hc : c < g.width) :
    g.inBounds ⟨(r : Int), (c : Int)⟩ = true := by
  simp only [Grid.inBounds, Bool.and_eq_true, decide_eq_true_eq]
  refine ⟨⟨⟨?_, ?_⟩, ?_⟩, ?_⟩ <;> omega

/-- Under the loop bounds the defensive guard never fires. -/
theorem cellAction_eq_unguarded {grid : Grid} {r c : Nat} (hr : r < grid.height)
    (hc : c < grid.width) (cell : Cell) :
    cellAction grid r c cell = cellActionUnguarded r c cell := by
  have hb := inBounds_of_lt hr hc
  cases cell <;> simp [cellAction, cellActionUnguarded, hb]

/-- Under the loop bounds `planCell` ignores the guard. -/
theorem planCell_eq_unguarded {grid : Grid} {goal : List (List String)} {r c : Nat}
    (hr : r < grid.height) (hc : c < grid.width) :
    planCell grid goal r c = planCellUnguarded goal r c := by
  unfold planCell planCellUnguarded
  cases hj : jsIndex goal r c with
  | error e => rfl
  | ok raw =>
    rw [except_bind_ok, except_bind_ok]
    cases hp : parseToken raw with
    | error e => rfl
    | ok cell =>
      rw [except_bind_ok, except_bind_ok, cellAction_eq_unguarded hr hc]

/-- Under the loop bounds the inner loops agree. -/
theorem planCells_eq_unguarded {grid : Grid} {goal : List (List String)} {r : Nat}
    (hr : r < grid.height) :
    ∀ {cs : List Nat}, (∀ c ∈ cs, c < grid.width) →
      planCells grid goal r cs = planCellsUnguarded goal r cs := by
  intro cs
  induction cs with
  | nil => intro _; rfl
  | cons c cs ih =>
    intro hcs
    unfold planCells planCellsUnguarded
    rw [planCell_eq_unguarded hr (hcs c (List.mem_cons_self c cs)),
      ih (fun c' hc' => hcs c' (List.mem_cons_of_mem c hc'))]

/-- Under the loop bounds the outer loops agree. -/
theorem planRows_eq_unguarded {grid : Grid} {goal : List (List String)}
    (hw : grid.width = (goal.head?.map List.length).getD 0) :
    ∀ {rs : List Nat}, (∀ r ∈ rs, r < grid.height) →
      planRows grid goal ((goal.head?.map List.length).getD 0) rs =
        planRowsUnguarded goal ((goal.head?.map List.length).getD 0) rs := by
  intro rs
  induction rs with
  | nil => intro _; rfl
  | cons r rs ih =>
    intro hrs
    unfold planRows planRowsUnguarded
    rw [planCells_eq_unguarded (hrs r (List.mem_cons_self r rs))
        (fun c hc => by rw [hw]; exact List.mem_range.mp hc),
      ih (fun r' hr' => hrs r' (List.mem_cons_of_mem r hr'))]

/-- C7: every point built by the planning loop is in bounds, so the
defensive out-of-bounds skip is unreachable: removing it changes nothing,
for any goal matrix whatsoever. -/
theorem spec_c7_oob_guard_unreachable :
    (∀ (g : Grid) (r c : Nat), r < g.height → c < g.width →
      g.inBounds ⟨(r : Int), (c : Int)⟩ = true) ∧
    (∀ goal : List (List String), planActionsUnguarded goal = planActions goal) := by
  constructor
  · intro g r c hr hc
    exact inBounds_of_lt hr hc
  · intro goal
    simp only [planActions, planActionsUnguarded]
    cases hg : Grid.make goal.length ((goal.head?.map List.length).getD 0) with
    | error e => rfl
    | ok grid =>
      rw [except_bind_ok, except_bind_ok]
      have hgrid := Grid.make_ok hg
      subst hgrid
      rw [planRows_eq_unguarded rfl (fun r hr => List.mem_range.mp hr)]

/-- Witness for C7: the guard passes at `(1,1)` of the 2×2 grid, and the
guarded and unguarded planners agree on the 2×2 goal. -/
theorem spec_c7_witness :
    (Grid.mk 2 2).inBounds ⟨(1 : Int), (1 : Int)⟩ = true ∧
    planActionsUnguarded [["POLYANET", "SPACE"], ["BLUE_SOLOON", "RIGHT_COMETH"]] =
      planActions [["POLYANET", "SPACE"], ["BLUE_SOLOON", "RIGHT_COMETH"]] :=
  ⟨spec_c7_oob_guard_unreachable.1 ⟨2, 2⟩ 1 1 (by decide) (by decide),
   spec_c7_oob_guard_unreachable.2 [["POLYANET", "SPACE"], ["BLUE_SOLOON", "RIGHT_COMETH"]]⟩

/-! ## Supporting lemmas: limiter -/

/-- The `resume` step on a nonempty wakeup list, as an equation. -/
theorem lstep_resume_cons {ι : Type} (max : Nat) (s : LimiterState ι) {w : ι}
    {wrest : List ι} (hw : s.woken = w :: wrest) :
    lstep max s .resume =
      { s with
        active := s.active + 1
        woken := wrest
        admitted := s.admitted ++ [w]
        waiterAdmitted := s.waiterAdmitted ++ [w] } := by
  simp [lstep, hw]

/-- The `finish` step on a nonempty queue, as an equation. -/
theorem lstep_finish_cons {ι : Type} (max : Nat) (s : LimiterState ι) {w : ι}
    {rest : List ι} (hq : s.queue = w :: rest) :
    lstep max s .finish =
      { s with
        active := s.active - 1
        queue := rest
        woken := s.woken ++ [w] } := by
  simp [lstep, hq]

/-- Splitting a trace splits `runTrace`. -/
theorem runTrace_append {ι : Type} (max : Nat) (s : LimiterState ι)
    (es1 es2 : List (LEvent ι)) :
    runTrace max s (es1 ++ es2) = runTrace max (runTrace max s es1) es2 := by
  simp [runTrace, List.foldl_append]

/-- Splitting a trace splits validity. -/
theorem validTrace_append {ι : Type} (max : Nat) :
    ∀ (es1 : List (LEvent ι)) (es2 : List (LEvent ι)) (s : LimiterState ι),
      validTrace max s (es1 ++ es2) =
        (validTrace max s es1 && validTrace max (runTrace max s es1) es2) := by
  intro es1
  induction es1 with
  | nil => intro es2 s; simp [validTrace, runTrace]
  | cons e es1 ih =>
    intro es2 s
    cases e with
    | arrive t => simp [validTrace, ih, runTrace]
    | finish => simp [validTrace, ih, runTrace, Bool.and_assoc]
    | resume => simp [validTrace, ih, runTrace, Bool.and_assoc]

/-- Arrivals alone are always a valid trace. -/
theorem validTrace_arrives {ι : Type} (max : Nat) :
    ∀ (ts : List ι) (s : LimiterState ι),
      validTrace max s (ts.map LEvent.arrive) = true := by
  intro ts
  induction ts with
  | nil => intro s; rfl
  | cons t ts ih => intro s; simpa [validTrace] using ih (lstep max s (.arrive t))

/-- One arrival preserves the arrival-phase invariant. -/
theorem batchInv_step {ι : Type} (max : Nat) (s : LimiterState ι) (t : ι)
    (hinv : BatchInv max s) : BatchInv max (lstep max s (.arrive t)) := by
  obtain ⟨h1, h2, h3⟩ := hinv
  simp only [lstep]
  by_cases hc : max ≤ s.active
  · rw [if_pos hc]
    exact ⟨h1, h2, fun _ => le_antisymm h1 hc⟩
  · rw [if_neg hc]
    refine ⟨?_, h2, fun hq => absurd (h3 hq) (by omega)⟩
    show s.active + 1 ≤ max
    omega

/-- The arrival phase keeps the arrival-phase invariant. -/
theorem batchInv_arrivals {ι : Type} (max : Nat) :
    ∀ (ts : List ι) (s : LimiterState ι), BatchInv max s →
      BatchInv max (runTrace max s (ts.map LEvent.arrive)) := by
  intro ts
  induction ts with
  | nil => intro s h; simpa [runTrace] using h
  | cons t ts ih =>
    intro s h
    have hstep := batchInv_step max s t h
    have := ih (lstep max s (.arrive t)) hstep
    simpa [runTrace] using this

/-- A valid drain event (`finish` or `resume`) preserves the drain invariant. -/
theorem drainInv_step {ι : Type} (max : Nat) (s : LimiterState ι) (e : LEvent ι)
    (he : isDrainEvent e = true) (hval : e = .finish → 0 < s.active)
    (hinv : DrainInv max s) : DrainInv max (lstep max s e) := by
  obtain ⟨h1, h2⟩ := hinv
  cases e with
  | arrive t => simp [isDrainEvent] at he
  | finish =>
    have hac : 0 < s.active := hval rfl
    cases hq : s.queue with
    | nil =>
      rw [show lstep max s .finish = { s with active := s.active - 1 } by simp [lstep, hq]]
      refine ⟨?_, fun hne => absurd hq hne⟩
      show s.active - 1 + s.woken.length ≤ max
      omega
    | cons w rest =>
      have hsat : s.active + s.woken.length = max := h2 (by rw [hq]; simp)
      rw [lstep_finish_cons max s hq]
      constructor
      · show s.active - 1 + (s.woken ++ [w]).length ≤ max
        simp only [List.length_append, List.length_cons, List.length_nil]
        omega
      · intro _
        show s.active - 1 + (s.woken ++ [w]).length = max
        simp only [List.length_append, List.length_cons, List.length_nil]
        omega
  | resume =>
    cases hw : s.woken with
    | nil =>
      rw [show lstep max s .resume = s by simp [lstep, hw]]
      exact ⟨h1, h2⟩
    | cons w wrest =>
      rw [lstep_resume_cons max s hw]
      rw [hw] at h1 h2
      simp only [List.length_cons] at h1 h2
      constructor
      · show s.active + 1 + wrest.length ≤ max
        omega
      · intro hq
        show s.active + 1 + wrest.length = max
        have := h2 hq
        omega

/-- A valid drain phase keeps the drain invariant. -/
theorem drainInv_run {ι : Type} (max : Nat) :
    ∀ (ds : List (LEvent ι)) (s : LimiterState ι), ds.all isDrainEvent = true →
      validTrace max s ds = true → DrainInv max s →
      DrainInv max (runTrace max s ds) := by
  intro ds
  induction ds with
  | nil => intro s _ _ h; simpa [runTrace] using h
  | cons e ds ih =>
    intro s hall hval hinv
    rw [List.all_cons, Bool.and_eq_true] at hall
    have hval' : validTrace max (lstep max s e) ds = true := by
      cases e with
      | arrive t => simp [isDrainEvent] at hall
      | finish =>
        simp only [validTrace, Bool.and_eq_true] at hval
        exact hval.2
      | resume =>
        simp only [validTrace, Bool.and_eq_true] at hval
        exact hval.2
    have hfin : e = LEvent.finish → 0 < s.active := by
      intro hef
      subst hef
      simp only [validTrace, Bool.and_eq_true, decide_eq_true_eq] at hval
      exact hval.1
    have hstep := drainInv_step max s e hall.1 hfin hinv
    have := ih (lstep max s e) hall.2 hval' hstep
    simpa [runTrace] using this

/-- One step preserves the FIFO equation: enqueue order equals the waiter
admission log followed by the pending wakeups followed by the queue. -/
theorem fifo_step {ι : Type} (max : Nat) (s : LimiterState ι) (e : LEvent ι)
    (h : s.enqueued = s.waiterAdmitted ++ s.woken ++ s.queue) :
    (lstep max s e).enqueued =
      (lstep max s e).waiterAdmitted ++ (lstep max s e).woken ++ (lstep max s e).queue := by
  cases e with
  | arrive t =>
    simp only [lstep]
    by_cases hc : max ≤ s.active
    · rw [if_pos hc]
      show s.enqueued ++ [t] = s.waiterAdmitted ++ s.woken ++ (s.queue ++ [t])
      rw [h]
      simp [List.append_assoc]
    · rw [if_neg hc]
      exact h
  | finish =>
    cases hq : s.queue with
    | nil =>
      rw [show lstep max s .finish = { s with active := s.active - 1 } by simp [lstep, hq]]
      exact h
    | cons w rest =>
      rw [lstep_finish_cons max s hq]
      show s.enqueued = s.waiterAdmitted ++ (s.woken ++ [w]) ++ rest
      rw [hq] at h
      rw [h]
      simp [List.append_assoc]
  | resume =>
    cases hw : s.woken with
    | nil =>
      rw [show lstep max s .resume = s by simp [lstep, hw]]
      exact h
    | cons w wrest =>
      rw [lstep_resume_cons max s hw]
      show s.enqueued = (s.waiterAdmitted ++ [w]) ++ wrest ++ s.queue
      rw [hw] at h
      rw [h]
      simp [List.append_assoc]

/-- The FIFO equation holds along every trace. -/
theorem fifo_run {ι : Type} (max : Nat) :
    ∀ (es : List (LEvent ι)) (s : LimiterState ι),
      s.enqueued = s.waiterAdmitted ++ s.woken ++ s.queue →
      (runTrace max s es).enqueued = (runTrace max s es).waiterAdmitted ++
        (runTrace max s es).woken ++ (runTrace max s es).queue := by
  intro es
  induction es with
  | nil => intro s h; simpa [runTrace] using h
  | cons e es ih =>
    intro s h
    have := ih (lstep max s e) (fifo_step max s e h)
    simpa [runTrace] using this

/-- With `max = 1` and a task already running, further arrivals only queue. -/
theorem runTrace_arrivals_max1 :
    ∀ (ts q adm wadm enq : List Nat),
      runTrace 1 (⟨1, q, [], adm, wadm, enq⟩ : LimiterState Nat) (ts.map LEvent.arrive) =
        ⟨1, q ++ ts, [], adm, wadm, enq ++ ts⟩ := by
  intro ts
  induction ts with
  | nil => intro q adm wadm enq; simp [runTrace]
  | cons t ts ih =>
    intro q adm wadm enq
    have hstep : lstep 1 (⟨1, q, [], adm, wadm, enq⟩ : LimiterState Nat) (.arrive t) =
        ⟨1, q ++ [t], [], adm, wadm, enq ++ [t]⟩ := by
      simp [lstep]
    simp only [List.map_cons, runTrace, List.foldl_cons, hstep]
    have := ih (q ++ [t]) adm wadm (enq ++ [t])
    simpa [runTrace] using this

/-- With `max = 1` and one task running, each queued waiter is drained by a
`finish` (wake) followed by its `resume`, head-first; one final `finish`
retires the last runner. -/
theorem runTrace_drain_max1 :
    ∀ (q adm wadm enq : List Nat),
      validTrace 1 (⟨1, q, [], adm, wadm, enq⟩ : LimiterState Nat)
        ((List.replicate q.length [LEvent.finish, LEvent.resume]).flatten ++
          [LEvent.finish]) = true ∧
      runTrace 1 (⟨1, q, [], adm, wadm, enq⟩ : LimiterState Nat)
        ((List.replicate q.length [LEvent.finish, LEvent.resume]).flatten ++
          [LEvent.finish]) = ⟨0, [], [], adm ++ q, wadm ++ q, enq⟩ := by
  intro q
  induction q with
  | nil =>
    intro adm wadm enq
    constructor
    · rfl
    · simp [runTrace, lstep]
  | cons c rest ih =>
    intro adm wadm enq
    have h1 : lstep 1 (⟨1, c :: rest, [], adm, wadm, enq⟩ : LimiterState Nat) .finish =
        ⟨0, rest, [c], adm, wadm, enq⟩ := by
      simp [lstep]
    have h2 : lstep 1 (⟨0, rest, [c], adm, wadm, enq⟩ : LimiterState Nat) .resume =
        ⟨1, rest, [], adm ++ [c], wadm ++ [c], enq⟩ := by
      simp [lstep]
    have hih := ih (adm ++ [c]) (wadm ++ [c]) enq
    have hshape : (List.replicate (c :: rest).length
        ([LEvent.finish, LEvent.resume] : List (LEvent Nat))).flatten ++ [LEvent.finish] =
        LEvent.finish :: LEvent.resume ::
          ((List.replicate rest.length
            ([LEvent.finish, LEvent.resume] : List (LEvent Nat))).flatten ++
              [LEvent.finish]) := by
      simp [List.replicate_succ]
    constructor
    · rw [hshape]
      show (decide (0 < 1) && validTrace 1
        (lstep 1 (⟨1, c :: rest, [], adm, wadm, enq⟩ : LimiterState Nat) .finish)
        (LEvent.resume :: ((List.replicate rest.length
          [LEvent.finish, LEvent.resume]).flatten ++ [LEvent.finish]))) = true
      rw [h1]
      show (decide (0 < 1) && ((!([c] : List Nat).isEmpty) && validTrace 1
        (lstep 1 (⟨0, rest, [c], adm, wadm, enq⟩ : LimiterState Nat) .resume)
        ((List.replicate rest.length
          [LEvent.finish, LEvent.resume]).flatten ++ [LEvent.finish]))) = true
      rw [h2]
      simp [hih.1]
    · rw [hshape]
      simp only [runTrace, List.foldl_cons, h1, h2]
      have := hih.2
      simp only [runTrace] at this
      rw [this]
      simp

/-! ## Claims C1, C2: limiter invariants and FIFO order -/

/-- C1 counterexample: the claim as stated is false of the source.  With
`max = 1`, a `run` call arriving in the wake handoff window (after a
finisher has woken the head waiter but before that waiter's `active++`
microtask runs) is admitted without re-check, and the woken waiter then
pushes `active` to 2 > max.  And even with all arrivals up front, right
after a `finish` that wakes one of two waiters the state has `active = 0 <
max` with the second waiter still queued, refuting "queue empty whenever
active < max". -/
theorem spec_c1_counterexample :
    validTrace 1 (initLimiter : LimiterState Nat)
      [.arrive 0, .arrive 1, .finish, .arrive 2, .resume] = true ∧
    (runTrace 1 (initLimiter : LimiterState Nat)
      [.arrive 0, .arrive 1, .finish, .arrive 2, .resume]).active = 2 ∧
    ¬ ((runTrace 1 (initLimiter : LimiterState Nat)
      [.arrive 0, .arrive 1, .finish, .arrive 2, .resume]).active ≤ 1) ∧
    validTrace 1 (initLimiter : LimiterState Nat)
      [.arrive 0, .arrive 1, .arrive 2, .finish] = true ∧
    (runTrace 1 (initLimiter : LimiterState Nat)
      [.arrive 0, .arrive 1, .arrive 2, .finish]).active < 1 ∧
    ¬ ((runTrace 1 (initLimiter : LimiterState Nat)
      [.arrive 0, .arrive 1, .arrive 2, .finish]).queue = []) := by
  decide

/-- C1 as amended: under batch submission (every arrival precedes the first
completion, as in the repository's `Promise.all` usage) the bound holds at
every moment — `0 ≤ active ≤ max` — and the queue is nonempty only while
running tasks plus pending wakeups saturate the bound (`active + |woken| =
max`). -/
theorem spec_c1_limiter_bound_batch (ι : Type) (max : Nat) (hmax : 1 ≤ max)
    (ts : List ι) (ds : List (LEvent ι)) (hd : ds.all isDrainEvent = true)
    (hval : validTrace max initLimiter (ts.map LEvent.arrive ++ ds) = true) :
    0 ≤ (runTrace max initLimiter (ts.map LEvent.arrive ++ ds)).active ∧
      (runTrace max initLimiter (ts.map LEvent.arrive ++ ds)).active ≤ max ∧
      ((runTrace max initLimiter (ts.map LEvent.arrive ++ ds)).queue ≠ [] →
        (runTrace max initLimiter (ts.map LEvent.arrive ++ ds)).active +
          (runTrace max initLimiter (ts.map LEvent.arrive ++ ds)).woken.length = max) := by
  rw [runTrace_append]
  rw [validTrace_append, Bool.and_eq_true] at hval
  have hb : BatchInv max (runTrace max (initLimiter : LimiterState ι) (ts.map LEvent.arrive)) :=
    batchInv_arrivals max ts initLimiter
      ⟨Nat.zero_le _, rfl, fun h => absurd rfl h⟩
  have hd0 : DrainInv max (runTrace max (initLimiter : LimiterState ι) (ts.map LEvent.arrive)) := by
    obtain ⟨h1, h2, h3⟩ := hb
    rw [DrainInv, h2]
    simpa using ⟨h1, h3⟩
  obtain ⟨h1, h2⟩ := drainInv_run max ds _ hd hval.2 hd0
  exact ⟨Nat.zero_le _, by omega, h2⟩

/-- Witness for the amended C1: three tasks batch-submitted at `max = 1`,
then fully drained. -/
theorem spec_c1_witness :
    0 ≤ (runTrace 1 initLimiter ([0, 1, 2].map LEvent.arrive ++
        [LEvent.finish, LEvent.resume, LEvent.finish, LEvent.resume, LEvent.finish])).active ∧
      (runTrace 1 initLimiter ([0, 1, 2].map LEvent.arrive ++
        [LEvent.finish, LEvent.resume, LEvent.finish, LEvent.resume, LEvent.finish])).active ≤ 1 ∧
      ((runTrace 1 initLimiter ([0, 1, 2].map LEvent.arrive ++
        [LEvent.finish, LEvent.resume, LEvent.finish, LEvent.resume, LEvent.finish])).queue ≠ [] →
        (runTrace 1 initLimiter ([0, 1, 2].map LEvent.arrive ++
          [LEvent.finish, LEvent.resume, LEvent.finish, LEvent.resume, LEvent.finish])).active +
          (runTrace 1 initLimiter ([0, 1, 2].map LEvent.arrive ++
            [LEvent.finish, LEvent.resume, LEvent.finish, LEvent.resume,
              LEvent.finish])).woken.length = 1) :=
  spec_c1_limiter_bound_batch Nat 1 (by decide) [0, 1, 2]
    [.finish, .resume, .finish, .resume, .finish] (by decide) (by decide)

/-- C2: suspended callers are admitted strictly in their enqueue order — in
every reachable state the enqueue log equals the waiter-admission log
followed by the pending wakeups followed by the queue, so no reordering and
no priority ever occur among waiters; and with `max = 1`, N queued tasks
are admitted (and recorded) exactly in enqueue order, the overall admission
log being the full arrival order. -/
theorem spec_c2_limiter_fifo :
    (∀ (ι : Type) (max : Nat) (es : List (LEvent ι)),
      (runTrace max initLimiter es).enqueued =
        (runTrace max initLimiter es).waiterAdmitted ++
          (runTrace max initLimiter es).woken ++ (runTrace max initLimiter es).queue) ∧
    (∀ (t : Nat) (ts : List Nat),
      validTrace 1 initLimiter ((t :: ts).map LEvent.arrive ++
        ((List.replicate ts.length [LEvent.finish, LEvent.resume]).flatten ++
          [LEvent.finish])) = true ∧
      (runTrace 1 initLimiter ((t :: ts).map LEvent.arrive ++
        ((List.replicate ts.length [LEvent.finish, LEvent.resume]).flatten ++
          [LEvent.finish]))).waiterAdmitted = ts ∧
      (runTrace 1 initLimiter ((t :: ts).map LEvent.arrive ++
        ((List.replicate ts.length [LEvent.finish, LEvent.resume]).flatten ++
          [LEvent.finish]))).admitted = t :: ts) := by
  constructor
  · intro ι max es
    exact fifo_run max es initLimiter rfl
  · intro t ts
    have h0 : lstep 1 (initLimiter : LimiterState Nat) (.arrive t) =
        ⟨1, [], [], [t], [], []⟩ := by
      simp [lstep, initLimiter]
    have harr : runTrace 1 (initLimiter : LimiterState Nat) ((t :: ts).map LEvent.arrive) =
        ⟨1, ts, [], [t], [], ts⟩ := by
      simp only [List.map_cons, runTrace, List.foldl_cons, h0]
      have := runTrace_arrivals_max1 ts [] [t] [] []
      simpa [runTrace] using this
    have hdrain := runTrace_drain_max1 ts [t] [] ts
    refine ⟨?_, ?_, ?_⟩
    · rw [validTrace_append, harr]
      have hva := validTrace_arrives 1 (t :: ts) (initLimiter : LimiterState Nat)
      simp only [List.map_cons] at hva
      simp [hva, hdrain.1]
    · rw [runTrace_append, harr, hdrain.2]
      simp
    · rw [runTrace_append, harr, hdrain.2]
      simp

end Crossmint
